import Mathlib

/-!
Verification of the state/persistence layer of the Todo-react application
(`src/App.jsx`): the task repository (add/update/remove/toggle handlers),
the filter engine (`filteredTodos`), the debouncer (`useDebounce`) and the
seeded initialization of the persisted store (`useLocalStorage`).

JavaScript strings are modelled as Lean `String`; `String.prototype.trim`,
`String.prototype.toLowerCase` and `String.prototype.includes` are modelled
on the underlying character lists.  Task ids (produced by
`crypto.randomUUID()`, a collision-free generator) are modelled as natural
numbers together with explicit freshness hypotheses.
-/

namespace TodoApp

/-- A task record, as stored under the `todo_list_demo` key:
`{id, text, done, priority}`.  `priority` is one of the strings
`"low"`, `"normal"`, `"high"` in the application. -/
structure Todo where
  id : Nat
  text : String
  done : Bool
  priority : String
  deriving DecidableEq, Repr

/-- Character-list trim: drop whitespace from both ends.  Models the effect
of JavaScript `String.prototype.trim` on the character sequence. -/
def trimChars (l : List Char) : List Char :=
  ((l.dropWhile Char.isWhitespace).reverse.dropWhile Char.isWhitespace).reverse

/-- Models JavaScript `text.trim()` (`App.jsx` lines 148 and 371). -/
def jsTrim (s : String) : String :=
  String.mk (trimChars s.toList)

/-- Models JavaScript `s.toLowerCase()` (`App.jsx` line 139): lower-case
each character. -/
def jsToLower (s : String) : String :=
  String.mk (s.toList.map Char.toLower)

/-- Models JavaScript `s.includes(sub)`: `sub` occurs contiguously in `s`
(`App.jsx` line 139). -/
def jsIncludes (s sub : String) : Bool :=
  decide (sub.toList <:+: s.toList)

/-- The partial-field object `newData` passed to `handleUpdateTodo`.  The
callers inside the application pass `{ text, priority }` (edit submit,
line 373) or `{ done }` (toggle, line 174); a field that is absent from the
object is left unchanged by the JavaScript spread `{ ...t, ...newData }`. -/
structure NewData where
  text : Option String
  done : Option Bool
  priority : Option String
  deriving DecidableEq, Repr

/-- The JavaScript spread `{ ...t, ...newData }` (`App.jsx` line 159):
every field present in `newData` overrides the field of `t`; `id` is not
among the fields the callers pass, so it is kept. -/
def mergeTodo (t : Todo) (nd : NewData) : Todo :=
  { id := t.id
    text := nd.text.getD t.text
    done := nd.done.getD t.done
    priority := nd.priority.getD t.priority }

/-- The list of ids of a collection. -/
def ids (todos : List Todo) : List Nat :=
  todos.map (·.id)

/-- `handleAddTodo(text, priority)` (`App.jsx` lines 145-154): builds
`{id: crypto.randomUUID(), text: text.trim(), done: false, priority}` and
prepends it.  The generated id is passed explicitly as `freshId`. -/
def handleAddTodo (text priority : String) (freshId : Nat)
    (todos : List Todo) : List Todo :=
  { id := freshId, text := jsTrim text, done := false, priority := priority }
    :: todos

/-- `handleUpdateTodo(id, newData)` (`App.jsx` lines 156-163):
`todos.map(t => t.id === id ? { ...t, ...newData } : t)`. -/
def handleUpdateTodo (i : Nat) (nd : NewData) (todos : List Todo) :
    List Todo :=
  todos.map (fun t => if t.id = i then mergeTodo t nd else t)

/-- `handleDeleteTodo(id)` (`App.jsx` lines 165-169):
`todos.filter(t => t.id !== id)`. -/
def handleDeleteTodo (i : Nat) (todos : List Todo) : List Todo :=
  todos.filter (fun t => t.id != i)

/-- `handleToggleDone(id)` (`App.jsx` lines 171-176): find the todo; if
present, update it with `{ done: !todo.done }`; otherwise do nothing. -/
def handleToggleDone (i : Nat) (todos : List Todo) : List Todo :=
  match todos.find? (fun t => t.id == i) with
  | some t => handleUpdateTodo i ⟨none, some (!t.done), none⟩ todos
  | none => todos

/-- The add entry point: `handleSubmit` in mode `new` (`App.jsx` lines
370-378) returns without adding when `text.trim()` is empty, else calls
`handleAddTodo`. -/
def submitNew (text priority : String) (freshId : Nat)
    (todos : List Todo) : List Todo :=
  if jsTrim text = "" then todos
  else handleAddTodo text priority freshId todos

/-- The edit entry point: `handleSubmit` in mode `edit` (`App.jsx` lines
370-378) returns when `text.trim()` is empty, else calls
`handleUpdateTodo(id, { text, priority })` with the *untrimmed* text. -/
def submitEdit (i : Nat) (text priority : String)
    (todos : List Todo) : List Todo :=
  if jsTrim text = "" then todos
  else handleUpdateTodo i ⟨some text, none, some priority⟩ todos

/-- `filteredTodos` (`App.jsx` lines 135-142): keep a todo unless the
status filter rejects it or a non-empty search term fails the
case-insensitive substring test. -/
def filteredTodos (todos : List Todo) (filter searchTerm : String) :
    List Todo :=
  todos.filter (fun t =>
    if filter == "active" && t.done then false
    else if filter == "completed" && !t.done then false
    else if searchTerm != "" &&
        !(jsIncludes (jsToLower t.text) (jsToLower searchTerm)) then false
    else true)

/-- The status predicate as the specification states it: `active` keeps
`done = false`, `completed` keeps `done = true`, `all` keeps everything. -/
def statusPass (filter : String) (t : Todo) : Bool :=
  if filter == "active" then !t.done
  else if filter == "completed" then t.done
  else true

/-- The search predicate as the specification states it: case-insensitive
substring containment, and the empty search term matches everything. -/
def searchPass (searchTerm : String) (t : Todo) : Bool :=
  (searchTerm == "") || jsIncludes (jsToLower t.text) (jsToLower searchTerm)

/-- The visibility predicate as the specification states it: status and
search predicates ANDed. -/
def visibleSpec (filter searchTerm : String) (t : Todo) : Bool :=
  statusPass filter t && searchPass searchTerm t

/-- One repository operation, as named by the specification.  An `add`
carries the id produced by `crypto.randomUUID()`; the generator being
collision-free is expressed by the `freshSeq` hypothesis below. -/
inductive Op where
  | add (text priority : String) (freshId : Nat)
  | update (i : Nat) (nd : NewData)
  | remove (i : Nat)
  | toggle (i : Nat)
  deriving DecidableEq, Repr

/-- Apply one repository operation (the corresponding `App.jsx` handler). -/
def applyOp (op : Op) (todos : List Todo) : List Todo :=
  match op with
  | .add text priority freshId => handleAddTodo text priority freshId todos
  | .update i nd => handleUpdateTodo i nd todos
  | .remove i => handleDeleteTodo i todos
  | .toggle i => handleToggleDone i todos

/-- Apply a sequence of repository operations, first operation first. -/
def applyOps (ops : List Op) (todos : List Todo) : List Todo :=
  ops.foldl (fun s op => applyOp op s) todos

/-- The id carried by an `add` is fresh for the current collection: this is
the collision-freedom of `crypto.randomUUID()`. -/
def freshOp (op : Op) (todos : List Todo) : Bool :=
  match op with
  | .add _ _ freshId => decide (freshId ∉ ids todos)
  | _ => true

/-- Every `add` in the sequence uses an id fresh for the collection at the
moment it runs. -/
def freshSeq : List Op → List Todo → Bool
  | [], _ => true
  | op :: ops, todos => freshOp op todos && freshSeq ops (applyOp op todos)

/-- One operation reachable from the public entry points of the UI:
submitting the add form, submitting the edit form, confirming a delete,
and clicking the done checkbox. -/
inductive EOp where
  | submitNewOp (text priority : String) (freshId : Nat)
  | submitEditOp (i : Nat) (text priority : String)
  | removeOp (i : Nat)
  | toggleOp (i : Nat)
  deriving DecidableEq, Repr

/-- Apply one entry-point operation. -/
def applyEOp (op : EOp) (todos : List Todo) : List Todo :=
  match op with
  | .submitNewOp text priority freshId => submitNew text priority freshId todos
  | .submitEditOp i text priority => submitEdit i text priority todos
  | .removeOp i => handleDeleteTodo i todos
  | .toggleOp i => handleToggleDone i todos

/-- Apply a sequence of entry-point operations, first operation first. -/
def applyEOps (ops : List EOp) (todos : List Todo) : List Todo :=
  ops.foldl (fun s op => applyEOp op s) todos

/-- The debouncer (`useDebounce`, `App.jsx` lines 28-39), modelled on an
event trace.  `events` lists the input changes as `(time, value)` pairs
with strictly increasing times.  Each change schedules an update of the
output for `time + delay`; the effect cleanup cancels the pending timer
when the next change arrives at or before the scheduled moment.
`firedUpdates` collects the `(fireTime, value)` updates that actually
reach the output. -/
def firedUpdates {α : Type} (delay : Nat) : List (Nat × α) → List (Nat × α)
  | [] => []
  | [(t, v)] => [(t + delay, v)]
  | (t₁, v₁) :: (t₂, v₂) :: rest =>
    (if t₁ + delay < t₂ then [(t₁ + delay, v₁)] else [])
      ++ firedUpdates delay ((t₂, v₂) :: rest)

/-- The debounced output at time `t`: the value of the last fired update at
or before `t`, or the initial value `v₀` if none fired yet. -/
def debOutput {α : Type} (delay : Nat) (v₀ : α) (events : List (Nat × α))
    (t : Nat) : α :=
  (firedUpdates delay events).foldl
    (fun acc e => if e.1 ≤ t then e.2 else acc) v₀

/-- Outcome of reading a key from the persisted store: the key is absent
(or empty), the stored string fails to parse (`JSON.parse` throws), or a
value is recovered. -/
inductive ReadOutcome (α : Type) where
  | absent
  | malformed
  | value (a : α)

/-- The `useState` initializer of `useLocalStorage` (`App.jsx` lines 5-13):
`JSON.parse` of the stored item when present and well-formed, otherwise the
supplied initial value (the `catch` branch logs and falls back). -/
def useLocalStorageInit {α : Type} (outcome : ReadOutcome α)
    (initialValue : α) : α :=
  match outcome with
  | .absent => initialValue
  | .malformed => initialValue
  | .value a => a

/-- The seed collection passed to `useLocalStorage('todo_list_demo', ...)`
(`App.jsx` lines 107-110), with the two generated ids explicit. -/
def seedTodos (id₁ id₂ : Nat) : List Todo :=
  [ { id := id₁, text := "Learn React Hooks", done := false,
      priority := "normal" },
    { id := id₂, text := "Do morning exercise", done := true,
      priority := "low" } ]

/-- Every task text in the collection has a non-empty trim: it is non-empty
and not whitespace-only. -/
def textNonBlank (todos : List Todo) : Prop :=
  ∀ t ∈ todos, jsTrim t.text ≠ ""

instance : DecidablePred textNonBlank := fun todos =>
  List.decidableBAll _ todos

/-! ## Helper lemmas -/

/-- Mapping a function that fixes every member of a list is the identity. -/
theorem map_eq_self_of_mem {α : Type} {f : α → α} {l : List α}
    (h : ∀ x ∈ l, f x = x) : l.map f = l := by
  induction l with
  | nil => rfl
  | cons a t ih =>
    simp only [List.map_cons, h a (List.mem_cons_self a t)]
    rw [ih fun x hx => h x (List.mem_cons_of_mem a hx)]

/-- An id is in `ids todos` exactly when some task of the collection
carries it. -/
theorem mem_ids {i : Nat} {todos : List Todo} :
    i ∈ ids todos ↔ ∃ t ∈ todos, t.id = i := by
  simp [ids]

/-- `handleUpdateTodo` never changes the id sequence of the collection. -/
theorem ids_handleUpdateTodo (i : Nat) (nd : NewData) (todos : List Todo) :
    ids (handleUpdateTodo i nd todos) = ids todos := by
  unfold ids handleUpdateTodo
  rw [List.map_map]
  apply List.map_congr_left
  intro t _
  by_cases h : t.id = i <;> simp [h, mergeTodo]

/-- `trimChars` is the composition of a left trim and a right trim. -/
theorem trimChars_eq (l : List Char) :
    trimChars l =
      List.rdropWhile Char.isWhitespace
        (l.dropWhile Char.isWhitespace) := rfl

/-- The head of a non-empty `dropWhile` result fails the predicate. -/
theorem dropWhile_head_false {α : Type} (p : α → Bool) (l : List α)
    (x : α) (xs : List α) (h : l.dropWhile p = x :: xs) : p x = false := by
  induction l with
  | nil => exact absurd h (by simp)
  | cons a t ih =>
    rw [List.dropWhile_cons] at h
    by_cases ha : p a
    · rw [if_pos ha] at h
      exact ih h
    · rw [if_neg ha] at h
      injection h with h1 h2
      subst h1
      simpa using ha

/-- Trimming an already trimmed character list changes nothing. -/
theorem trimChars_idem (l : List Char) :
    trimChars (trimChars l) = trimChars l := by
  rw [trimChars_eq, trimChars_eq]
  have h1 : List.dropWhile Char.isWhitespace
      (List.rdropWhile Char.isWhitespace
        (l.dropWhile Char.isWhitespace)) =
      List.rdropWhile Char.isWhitespace
        (l.dropWhile Char.isWhitespace) := by
    obtain ⟨t, ht⟩ :=
      List.rdropWhile_prefix Char.isWhitespace
        (l.dropWhile Char.isWhitespace)
    cases hB : List.rdropWhile Char.isWhitespace
        (l.dropWhile Char.isWhitespace) with
    | nil => simp
    | cons x xs =>
      rw [hB, List.cons_append] at ht
      have hx : Char.isWhitespace x = false :=
        dropWhile_head_false Char.isWhitespace l x (xs ++ t) ht.symm
      rw [List.dropWhile_cons, if_neg (by simp [hx])]
  rw [h1, List.rdropWhile_idempotent]

/-- `jsTrim` is idempotent. -/
theorem jsTrim_idem (s : String) : jsTrim (jsTrim s) = jsTrim s := by
  show String.mk (trimChars (trimChars s.toList)) =
    String.mk (trimChars s.toList)
  rw [trimChars_idem]

/-! ## Claim theorems -/

/-- A single repository operation with a fresh add-id keeps the id
sequence duplicate-free. -/
theorem nodup_ids_step (op : Op) (todos : List Todo)
    (hf : freshOp op todos = true) (h : (ids todos).Nodup) :
    (ids (applyOp op todos)).Nodup := by
  cases op with
  | add text priority freshId =>
    simp only [freshOp, decide_eq_true_eq] at hf
    show (ids (handleAddTodo text priority freshId todos)).Nodup
    rw [show ids (handleAddTodo text priority freshId todos) =
      freshId :: ids todos from rfl]
    exact List.nodup_cons.mpr ⟨hf, h⟩
  | update i nd =>
    show (ids (handleUpdateTodo i nd todos)).Nodup
    rw [ids_handleUpdateTodo]
    exact h
  | remove i =>
    show (ids (handleDeleteTodo i todos)).Nodup
    apply List.Nodup.sublist _ h
    exact (List.filter_sublist todos).map (·.id)
  | toggle i =>
    show (ids (handleToggleDone i todos)).Nodup
    unfold handleToggleDone
    cases hfind : todos.find? (fun t => t.id == i) with
    | none => exact h
    | some t =>
      rw [ids_handleUpdateTodo]
      exact h

/-- C1: starting from a collection with unique ids, every sequence of add,
update, remove, and toggleDone operations — each add using a fresh id, as
`crypto.randomUUID()` guarantees — leaves every task id in the resulting
collection unique. -/
theorem unique_ids (ops : List Op) (todos : List Todo)
    (hf : freshSeq ops todos = true) (h : (ids todos).Nodup) :
    (ids (applyOps ops todos)).Nodup := by
  induction ops generalizing todos with
  | nil => simpa [applyOps] using h
  | cons op ops ih =>
    rw [freshSeq, Bool.and_eq_true] at hf
    exact ih (applyOp op todos)
      hf.2 (nodup_ids_step op todos hf.1 h)

/-- Witness for C1: a concrete five-operation run from the seed
collection. -/
theorem unique_ids_witness :
    freshSeq
        [Op.add " Buy milk " "high" 7, Op.toggle 7,
          Op.update 7 ⟨some "Buy oat milk", none, none⟩,
          Op.add "Stretch" "low" 3, Op.remove 2]
        (seedTodos 1 2) = true ∧
      (ids (applyOps
        [Op.add " Buy milk " "high" 7, Op.toggle 7,
          Op.update 7 ⟨some "Buy oat milk", none, none⟩,
          Op.add "Stretch" "low" 3, Op.remove 2]
        (seedTodos 1 2))).Nodup :=
  ⟨by decide,
    unique_ids
      [Op.add " Buy milk " "high" 7, Op.toggle 7,
        Op.update 7 ⟨some "Buy oat milk", none, none⟩,
        Op.add "Stretch" "low" 3, Op.remove 2]
      (seedTodos 1 2) (by decide) (by decide)⟩

/-- C2: for every collection, every priority, and every text whose trim is
empty (including the empty string), the add operation (the `handleSubmit`
guard composed with `handleAddTodo`) leaves the collection unchanged. -/
theorem add_blank_noop (text priority : String) (freshId : Nat)
    (todos : List Todo) (h : jsTrim text = "") :
    submitNew text priority freshId todos = todos := by
  unfold submitNew
  rw [if_pos h]

/-- Witness for C2 at whitespace-only text and a concrete collection. -/
theorem add_blank_noop_witness :
    jsTrim "   " = "" ∧
      submitNew "   " "high" 9 (seedTodos 1 2) = seedTodos 1 2 :=
  ⟨by decide, add_blank_noop "   " "high" 9 (seedTodos 1 2) (by decide)⟩

/-- C3: `add(" Buy milk ", "high")` with a fresh id prepends a new record
with trimmed text `"Buy milk"`, `done = false`, `priority = "high"`, and
leaves the previous collection unchanged, in order, behind it. -/
theorem add_buy_milk_prepends (freshId : Nat) (todos : List Todo)
    (h : freshId ∉ ids todos) :
    submitNew " Buy milk " "high" freshId todos =
      { id := freshId, text := "Buy milk", done := false, priority := "high" }
        :: todos := by
  unfold submitNew handleAddTodo
  rw [if_neg (by decide : ¬(jsTrim " Buy milk " = ""))]
  rw [show jsTrim " Buy milk " = "Buy milk" from by decide]

/-- Witness for C3 on the seed collection with fresh id 9. -/
theorem add_buy_milk_prepends_witness :
    9 ∉ ids (seedTodos 1 2) ∧
      submitNew " Buy milk " "high" 9 (seedTodos 1 2) =
        { id := 9, text := "Buy milk", done := false, priority := "high" }
          :: seedTodos 1 2 :=
  ⟨by decide, add_buy_milk_prepends 9 (seedTodos 1 2) (by decide)⟩

/-- C5: for an id not present in the collection, update, remove and
toggleDone all return a collection element-wise identical to the input:
the fail-soft no-op policy on unknown ids. -/
theorem missing_id_noop (i : Nat) (nd : NewData) (todos : List Todo)
    (h : i ∉ ids todos) :
    handleUpdateTodo i nd todos = todos ∧
      handleDeleteTodo i todos = todos ∧
      handleToggleDone i todos = todos := by
  have hne : ∀ t ∈ todos, t.id ≠ i := by
    intro t ht he
    exact h (mem_ids.mpr ⟨t, ht, he⟩)
  refine ⟨?_, ?_, ?_⟩
  · unfold handleUpdateTodo
    apply map_eq_self_of_mem
    intro t ht
    rw [if_neg (hne t ht)]
  · unfold handleDeleteTodo
    rw [List.filter_eq_self]
    intro t ht
    simpa using hne t ht
  · unfold handleToggleDone
    have hf : todos.find? (fun t => t.id == i) = none := by
      rw [List.find?_eq_none]
      intro t ht
      simpa using hne t ht
    rw [hf]

/-- Witness for C5 at id 9, absent from the seed collection. -/
theorem missing_id_noop_witness :
    9 ∉ ids (seedTodos 1 2) ∧
      (handleUpdateTodo 9 ⟨some "x", none, none⟩ (seedTodos 1 2) =
          seedTodos 1 2 ∧
        handleDeleteTodo 9 (seedTodos 1 2) = seedTodos 1 2 ∧
        handleToggleDone 9 (seedTodos 1 2) = seedTodos 1 2) :=
  ⟨by decide,
    missing_id_noop 9 ⟨some "x", none, none⟩ (seedTodos 1 2) (by decide)⟩

/-- C4: when the collection has unique ids and contains a record with the
given id, `update(id, partialFields)` rewrites exactly the position of that
record with the whole-field merge — whose id is the record's own id —
leaving every other record and the order of the collection unchanged. -/
theorem update_merges_single_record (i : Nat) (nd : NewData)
    (todos : List Todo) (hnd : (ids todos).Nodup) (h : i ∈ ids todos) :
    ∃ j : Fin todos.length,
      (todos.get j).id = i ∧
        (mergeTodo (todos.get j) nd).id = i ∧
        handleUpdateTodo i nd todos =
          todos.set j.val (mergeTodo (todos.get j) nd) := by
  induction todos with
  | nil => simp [ids] at h
  | cons t rest ih =>
    simp only [ids, List.map_cons, List.nodup_cons] at hnd
    obtain ⟨hti, hrest⟩ := hnd
    simp only [ids, List.map_cons, List.mem_cons] at h
    rcases h with h | h
    · refine ⟨⟨0, by simp⟩, h.symm, ?_, ?_⟩
      · simpa [mergeTodo] using h.symm
      · unfold handleUpdateTodo
        rw [List.map_cons, if_pos h.symm]
        show _ :: _ = mergeTodo t nd :: rest
        congr 1
        apply map_eq_self_of_mem
        intro u hu
        rw [if_neg]
        intro he
        exact hti (h ▸ he ▸ List.mem_map_of_mem (·.id) hu)
    · have hti2 : t.id ≠ i := fun he => hti (he ▸ h)
      obtain ⟨j, hj1, hj2, hj3⟩ := ih hrest h
      refine ⟨j.succ, by simpa using hj1, by simpa using hj2, ?_⟩
      unfold handleUpdateTodo at hj3 ⊢
      rw [List.map_cons, if_neg hti2]
      show t :: _ = t :: _
      congr 1

/-- Witness for C4 on the seed collection, updating id 2 with new text and
priority. -/
theorem update_merges_single_record_witness :
    (ids (seedTodos 1 2)).Nodup ∧ 2 ∈ ids (seedTodos 1 2) ∧
      ∃ j : Fin (seedTodos 1 2).length,
        ((seedTodos 1 2).get j).id = 2 ∧
          (mergeTodo ((seedTodos 1 2).get j)
              ⟨some "Stretch", none, some "high"⟩).id = 2 ∧
          handleUpdateTodo 2 ⟨some "Stretch", none, some "high"⟩
              (seedTodos 1 2) =
            (seedTodos 1 2).set j.val
              (mergeTodo ((seedTodos 1 2).get j)
                ⟨some "Stretch", none, some "high"⟩) :=
  ⟨by decide, by decide,
    update_merges_single_record 2 ⟨some "Stretch", none, some "high"⟩
      (seedTodos 1 2) (by decide) (by decide)⟩

/-- C6: for each of the three status filter values, `filteredTodos` returns
exactly the tasks passing the spec's status predicate and search predicate
ANDed, in the input order (`List.filter` preserves order): `active` keeps
`done = false`, `completed` keeps `done = true`, `all` keeps everything;
the search test is case-insensitive substring containment and the empty
search term matches everything. -/
theorem filter_engine (todos : List Todo) (f s : String)
    (h : f = "all" ∨ f = "active" ∨ f = "completed") :
    filteredTodos todos f s = todos.filter (visibleSpec f s) := by
  unfold filteredTodos
  apply List.filter_congr
  intro t _
  unfold visibleSpec statusPass searchPass
  rcases h with h | h | h <;> subst h <;>
    cases hs : (s == "") <;>
    cases hi : jsIncludes (jsToLower t.text) (jsToLower s) <;>
    cases hd : t.done <;>
    simp [hs, hi, hd, bne,
      show (("all" : String) == "active") = false from by decide,
      show (("all" : String) == "completed") = false from by decide,
      show (("active" : String) == "active") = true from by decide,
      show (("active" : String) == "completed") = false from by decide,
      show (("completed" : String) == "active") = false from by decide,
      show (("completed" : String) == "completed") = true from by decide]

/-- Witness for C6: the active filter with search term "react" on the seed
collection. -/
theorem filter_engine_witness :
    ("active" = "all" ∨ "active" = "active" ∨ "active" = "completed") ∧
      filteredTodos (seedTodos 1 2) "active" "react" =
        (seedTodos 1 2).filter (visibleSpec "active" "react") :=
  ⟨Or.inr (Or.inl rfl),
    filter_engine (seedTodos 1 2) "active" "react" (Or.inr (Or.inl rfl))⟩

/-- C7: on a collection with unique ids containing the given id, applying
toggleDone twice returns the collection element-wise to its original
state: the record's `done` field returns to its original value and all
other fields and records are unchanged. -/
theorem toggle_involution (i : Nat) (todos : List Todo)
    (hnd : (ids todos).Nodup) (h : i ∈ ids todos) :
    handleToggleDone i (handleToggleDone i todos) = todos := by
  have hsome : (todos.find? (fun t => t.id == i)).isSome := by
    rw [List.find?_isSome]
    obtain ⟨t, ht, hti⟩ := mem_ids.mp h
    exact ⟨t, ht, by simp [hti]⟩
  obtain ⟨t₀, hfind⟩ := Option.isSome_iff_exists.mp hsome
  have ht₀i : t₀.id = i := by simpa using List.find?_some hfind
  have ht₀mem : t₀ ∈ todos := List.mem_of_find?_eq_some hfind
  conv_lhs =>
    rw [show handleToggleDone i todos =
      handleUpdateTodo i ⟨none, some (!t₀.done), none⟩ todos by
        unfold handleToggleDone
        rw [hfind]]
  have hcomp : ((fun t : Todo => t.id == i) ∘
      (fun t => if t.id = i then mergeTodo t ⟨none, some (!t₀.done), none⟩
        else t)) = fun t : Todo => t.id == i := by
    funext t
    by_cases hti : t.id = i <;> simp [Function.comp, hti, mergeTodo]
  have hfind2 : (handleUpdateTodo i ⟨none, some (!t₀.done), none⟩
      todos).find? (fun t => t.id == i) =
      some (mergeTodo t₀ ⟨none, some (!t₀.done), none⟩) := by
    unfold handleUpdateTodo
    rw [List.find?_map, hcomp, hfind]
    rw [show Option.map
      (fun t => if t.id = i
        then mergeTodo t ⟨none, some (!t₀.done), none⟩ else t) (some t₀) =
      some (if t₀.id = i
        then mergeTodo t₀ ⟨none, some (!t₀.done), none⟩ else t₀) from rfl]
    rw [if_pos ht₀i]
  have houter : handleToggleDone i
      (handleUpdateTodo i ⟨none, some (!t₀.done), none⟩ todos) =
      handleUpdateTodo i ⟨none, some (!(!t₀.done)), none⟩
        (handleUpdateTodo i ⟨none, some (!t₀.done), none⟩ todos) := by
    unfold handleToggleDone
    rw [hfind2]
    rfl
  rw [houter]
  unfold handleUpdateTodo
  rw [List.map_map]
  apply map_eq_self_of_mem
  intro u hu
  by_cases hui : u.id = i
  · have hu0 : u = t₀ := by
      have hinj := List.inj_on_of_nodup_map (f := fun t : Todo => t.id)
        (by simpa [ids] using hnd)
      exact hinj hu ht₀mem (by rw [hui, ht₀i])
    subst hu0
    show (if (if u.id = i then mergeTodo u ⟨none, some (!u.done), none⟩
          else u).id = i
        then mergeTodo
          (if u.id = i then mergeTodo u ⟨none, some (!u.done), none⟩ else u)
          ⟨none, some (!(!u.done)), none⟩
        else if u.id = i then mergeTodo u ⟨none, some (!u.done), none⟩
          else u) = u
    rw [if_pos hui]
    rw [if_pos (show (mergeTodo u ⟨none, some (!u.done), none⟩).id = i
      from hui)]
    show Todo.mk u.id u.text (!(!u.done)) u.priority = u
    rw [Bool.not_not]
  · simp [Function.comp, mergeTodo, hui]

/-- Witness for C7: toggling id 2 twice on the seed collection. -/
theorem toggle_involution_witness :
    (ids (seedTodos 1 2)).Nodup ∧ 2 ∈ ids (seedTodos 1 2) ∧
      handleToggleDone 2 (handleToggleDone 2 (seedTodos 1 2)) =
        seedTodos 1 2 :=
  ⟨by decide, by decide,
    toggle_involution 2 (seedTodos 1 2) (by decide) (by decide)⟩

/-- Each entry-point operation preserves the property that every text in
the collection has a non-empty trim. -/
theorem textNonBlank_step (op : EOp) (todos : List Todo)
    (h : textNonBlank todos) : textNonBlank (applyEOp op todos) := by
  cases op with
  | submitNewOp text priority freshId =>
    show textNonBlank (submitNew text priority freshId todos)
    unfold submitNew
    by_cases hb : jsTrim text = ""
    · rw [if_pos hb]
      exact h
    · rw [if_neg hb]
      intro t ht
      rcases List.mem_cons.mp ht with rfl | ht
      · show jsTrim (jsTrim text) ≠ ""
        rw [jsTrim_idem]
        exact hb
      · exact h t ht
  | submitEditOp i text priority =>
    show textNonBlank (submitEdit i text priority todos)
    unfold submitEdit
    by_cases hb : jsTrim text = ""
    · rw [if_pos hb]
      exact h
    · rw [if_neg hb]
      intro t ht
      obtain ⟨u, hu, rfl⟩ := List.mem_map.mp ht
      by_cases hui : u.id = i
      · rw [if_pos hui]
        exact hb
      · rw [if_neg hui]
        exact h u hu
  | removeOp i =>
    intro t ht
    exact h t (List.mem_of_mem_filter ht)
  | toggleOp i =>
    show textNonBlank (handleToggleDone i todos)
    unfold handleToggleDone
    cases hfind : todos.find? (fun t => t.id == i) with
    | none => exact h
    | some t₀ =>
      intro t ht
      obtain ⟨u, hu, rfl⟩ := List.mem_map.mp ht
      by_cases hui : u.id = i
      · rw [if_pos hui]
        exact h u hu
      · rw [if_neg hui]
        exact h u hu

/-- C8 (amended): every task text in the collection has a non-empty trim
(it is non-empty and not whitespace-only), and this is preserved by every
sequence of operations reachable from the public entry points, including
editing an existing task.  (The stronger clause of the claim — that texts
stay fully trimmed — fails at the edit entry point; see the
counterexample.) -/
theorem text_never_blank (ops : List EOp) (todos : List Todo)
    (h : textNonBlank todos) : textNonBlank (applyEOps ops todos) := by
  induction ops generalizing todos with
  | nil => exact h
  | cons op ops ih => exact ih _ (textNonBlank_step op todos h)

/-- Witness for C8 (amended): a concrete entry-point run from the seed
collection. -/
theorem text_never_blank_witness :
    textNonBlank (seedTodos 1 2) ∧
      textNonBlank (applyEOps
        [EOp.submitNewOp " Buy milk " "high" 7,
          EOp.submitEditOp 7 " Buy oat milk " "low",
          EOp.toggleOp 7, EOp.removeOp 2]
        (seedTodos 1 2)) :=
  ⟨by decide,
    text_never_blank
      [EOp.submitNewOp " Buy milk " "high" 7,
        EOp.submitEditOp 7 " Buy oat milk " "low",
        EOp.toggleOp 7, EOp.removeOp 2]
      (seedTodos 1 2) (by decide)⟩

/-- Counterexample to C8 as stated: starting from a collection whose only
text `"hi"` is non-empty and trimmed, the edit entry point with text
`" hi "` (whose trim is non-empty, so it passes the guard) stores the
text untrimmed — the resulting text `" hi "` differs from its own trim,
so the "trimmed" part of the invariant is not preserved by editing. -/
theorem text_trimmed_counterexample :
    textNonBlank [(⟨0, "hi", false, "normal"⟩ : Todo)] ∧
      jsTrim "hi" = "hi" ∧
      (applyEOps [EOp.submitEditOp 0 " hi " "normal"]
          [(⟨0, "hi", false, "normal"⟩ : Todo)]).map (fun t => t.text) =
        [" hi "] ∧
      jsTrim " hi " ≠ " hi " := by
  refine ⟨by decide, by decide, by decide, by decide⟩

/-- Every fired debouncer update carries the value of one of the input
events. -/
theorem firedUpdates_snd_mem {α : Type} (d : Nat) :
    ∀ (evs : List (Nat × α)) (e : Nat × α),
      e ∈ firedUpdates d evs → e.2 ∈ evs.map Prod.snd := by
  intro evs
  induction evs with
  | nil =>
    intro e he
    simp [firedUpdates] at he
  | cons hd tl ih =>
    obtain ⟨t₁, v₁⟩ := hd
    cases tl with
    | nil =>
      intro e he
      rw [show firedUpdates d [(t₁, v₁)] = [(t₁ + d, v₁)] from rfl] at he
      rw [List.mem_singleton] at he
      subst he
      simp
    | cons hd2 tl2 =>
      obtain ⟨t₂, v₂⟩ := hd2
      intro e he
      rw [show firedUpdates d ((t₁, v₁) :: (t₂, v₂) :: tl2) =
        (if t₁ + d < t₂ then [(t₁ + d, v₁)] else [])
          ++ firedUpdates d ((t₂, v₂) :: tl2) from rfl] at he
      rcases List.mem_append.mp he with he | he
      · by_cases hlt : t₁ + d < t₂
        · rw [if_pos hlt, List.mem_singleton] at he
          subst he
          simp
        · rw [if_neg hlt] at he
          simp at he
      · exact List.mem_cons_of_mem _ (ih e he)

/-- A fold of conditional updates over a list of timed values yields the
initial value or one of the listed values. -/
theorem foldl_latest_mem {α : Type} (t : Nat) :
    ∀ (l : List (Nat × α)) (v : α),
      l.foldl (fun acc e => if e.1 ≤ t then e.2 else acc) v = v ∨
        l.foldl (fun acc e => if e.1 ≤ t then e.2 else acc) v ∈
          l.map Prod.snd := by
  intro l
  induction l with
  | nil =>
    intro v
    left
    rfl
  | cons e l ih =>
    intro v
    rw [List.foldl_cons]
    rcases ih (if e.1 ≤ t then e.2 else v) with h | h
    · rw [h]
      by_cases he : e.1 ≤ t
      · right
        rw [if_pos he]
        simp
      · left
        rw [if_neg he]
    · right
      exact List.mem_cons_of_mem _ h

/-- C9: the debouncer with delay 400 fed "A" at t=0, "B" at t=100 and "C"
at t=150 (with prior output v₀) updates exactly once, to "C" at t=550: at
every time the output is "C" from 550 on and the prior value v₀ before,
never "A" or "B"; and in general the debounced output is always either the
initial value or one of the historical input values. -/
theorem debounce_scenario (v₀ : String) (t : Nat) :
    debOutput 400 v₀ [(0, "A"), (100, "B"), (150, "C")] t =
        (if 550 ≤ t then "C" else v₀) ∧
      ∀ (d : Nat) (w : String) (evs : List (Nat × String)) (u : Nat),
        debOutput d w evs u = w ∨
          debOutput d w evs u ∈ evs.map Prod.snd := by
  constructor
  · have hf : firedUpdates 400 [(0, "A"), (100, "B"), (150, "C")] =
        [(550, "C")] := by decide
    unfold debOutput
    rw [hf, List.foldl_cons, List.foldl_nil]
  · intro d w evs u
    unfold debOutput
    rcases foldl_latest_mem u (firedUpdates d evs) w with h | h
    · left
      exact h
    · right
      obtain ⟨e, he, hev⟩ := List.mem_map.mp h
      rw [← hev]
      exact firedUpdates_snd_mem d evs e he

/-- C10: when the persisted value under `todo_list_demo` is absent or
unparseable, the repository initializes to the two-element seeded
collection (a not-done normal-priority "Learn React Hooks" task followed
by a done low-priority "Do morning exercise" task), not to the empty
collection. -/
theorem seeded_initialization (id₁ id₂ : Nat) :
    useLocalStorageInit ReadOutcome.absent (seedTodos id₁ id₂) =
        seedTodos id₁ id₂ ∧
      useLocalStorageInit ReadOutcome.malformed (seedTodos id₁ id₂) =
        seedTodos id₁ id₂ ∧
      seedTodos id₁ id₂ ≠ [] ∧
      (seedTodos id₁ id₂).map (fun t => (t.text, t.done, t.priority)) =
        [("Learn React Hooks", false, "normal"),
          ("Do morning exercise", true, "low")] :=
  ⟨rfl, rfl, by simp [seedTodos], rfl⟩

end TodoApp
